import Mathlib

/-!
Verification development for the Spark History Server MCP core:
a shallow embedding of the REST adapter (URL fallback, auth handling,
timestamp parsing), the EMR persistent-UI session bootstrap, and the
analytics layer (slowest-N ranking, pagination, bottleneck detection,
resource timeline), with theorems settling the specified properties.
-/

namespace SparkHistory

/-! ## Stable descending insertion sort (embedding of Python `sorted(..., key=k, reverse=True)`)

Python's `sorted` is stable; with `reverse=True` it orders by descending key and
ties keep their original order.  `insertDescBy` places `x` before the first
element whose key is `≤ k x`; folding from the right over the input list yields
exactly this stable descending order. -/

def insertDescBy {α β : Type} [LinearOrder β] (k : α → β) (x : α) : List α → List α
  | [] => [x]
  | y :: ys => if k y ≤ k x then x :: y :: ys else y :: insertDescBy k x ys

def sortDescBy {α β : Type} [LinearOrder β] (k : α → β) (l : List α) : List α :=
  l.foldr (insertDescBy k) []

theorem length_insertDescBy {α β : Type} [LinearOrder β] (k : α → β) (x : α) (l : List α) :
    (insertDescBy k x l).length = l.length + 1 := by
  induction l with
  | nil => rfl
  | cons y ys ih =>
    simp only [insertDescBy]
    split <;> simp [ih]

theorem length_sortDescBy {α β : Type} [LinearOrder β] (k : α → β) (l : List α) :
    (sortDescBy k l).length = l.length := by
  induction l with
  | nil => rfl
  | cons y ys ih => simp [sortDescBy, List.foldr, length_insertDescBy, ← ih]

theorem mem_insertDescBy {α β : Type} [LinearOrder β] (k : α → β) (x a : α) (l : List α) :
    a ∈ insertDescBy k x l ↔ a = x ∨ a ∈ l := by
  induction l with
  | nil => simp [insertDescBy]
  | cons y ys ih =>
    simp only [insertDescBy]
    split
    · simp
    · simp only [List.mem_cons, ih]
      tauto

theorem mem_sortDescBy {α β : Type} [LinearOrder β] (k : α → β) (a : α) (l : List α) :
    a ∈ sortDescBy k l ↔ a ∈ l := by
  induction l with
  | nil => simp [sortDescBy]
  | cons y ys ih =>
    simp only [sortDescBy, List.foldr] at *
    rw [mem_insertDescBy, ih]
    simp

/-- Inserting into a list that is pairwise descending by key keeps it so. -/
theorem pairwise_insertDescBy {α β : Type} [LinearOrder β] (k : α → β) (x : α) (l : List α)
    (h : l.Pairwise (fun a b => k b ≤ k a)) :
    (insertDescBy k x l).Pairwise (fun a b => k b ≤ k a) := by
  induction l with
  | nil => simp [insertDescBy]
  | cons y ys ih =>
    simp only [insertDescBy]
    rcases List.pairwise_cons.mp h with ⟨hy, hys⟩
    split
    · rename_i hle
      refine List.pairwise_cons.mpr ⟨?_, h⟩
      intro b hb
      rcases List.mem_cons.mp hb with rfl | hb
      · exact hle
      · exact le_trans (hy b hb) hle
    · rename_i hgt
      push_neg at hgt
      refine List.pairwise_cons.mpr ⟨?_, ih hys⟩
      intro b hb
      rcases (mem_insertDescBy k x b ys).mp hb with rfl | hb
      · exact le_of_lt hgt
      · exact hy b hb

theorem pairwise_sortDescBy {α β : Type} [LinearOrder β] (k : α → β) (l : List α) :
    (sortDescBy k l).Pairwise (fun a b => k b ≤ k a) := by
  induction l with
  | nil => simp [sortDescBy]
  | cons y ys ih => exact pairwise_insertDescBy k y _ ih

/-- Stability of the descending sort: for any key value `q`, the elements whose
key equals `q` appear in the same order as in the input list. -/
theorem filter_insertDescBy {α β : Type} [LinearOrder β] (k : α → β) (x : α) (l : List α)
    (q : β) :
    (insertDescBy k x l).filter (fun a => decide (k a = q)) =
      if k x = q then x :: l.filter (fun a => decide (k a = q))
      else l.filter (fun a => decide (k a = q)) := by
  induction l with
  | nil => by_cases hx : k x = q <;> simp [insertDescBy, List.filter, hx]
  | cons y ys ih =>
    simp only [insertDescBy]
    split
    · rename_i hle
      by_cases hx : k x = q <;> simp [List.filter, hx]
    · rename_i hgt
      push_neg at hgt
      by_cases hx : k x = q
      · have hy : ¬ (k y = q) := by
          intro hEq
          exact absurd (hEq ▸ hgt) (by simp [hx])
        simp [List.filter, hy, ih, hx]
      · by_cases hy : k y = q <;> simp [List.filter, hy, ih, hx]

theorem filter_sortDescBy {α β : Type} [LinearOrder β] (k : α → β) (l : List α) (q : β) :
    (sortDescBy k l).filter (fun a => decide (k a = q)) =
      l.filter (fun a => decide (k a = q)) := by
  induction l with
  | nil => rfl
  | cons y ys ih =>
    simp only [sortDescBy, List.foldr] at *
    rw [filter_insertDescBy]
    by_cases hy : k y = q <;> simp [List.filter, hy, ih]

/-! ## REST adapter: URL fallback (`SparkRestClient._modify_url` / `SparkRestClient._get`)

URLs are modelled as `List Char`.  `searchPattern` embeds
`re.compile(r"(.*?/applications/[^/]+/)(.+)").search(url)`: the scan tries each
start position from the left; at a position where the literal `/applications/`
matches, the following segment must be nonempty, slash-free and followed by `/`
and a nonempty remainder, otherwise the scan moves on. -/

def appsLit : List Char := "/applications/".toList

/-- One candidate match of the pattern at the current position: returns
`(group 1, group 2)` on success. -/
def tryCandidate (acc cs : List Char) : Option (List Char × List Char) :=
  if appsLit.isPrefixOf cs then
    let rest := cs.drop appsLit.length
    let seg := rest.takeWhile (fun c => c ≠ '/')
    match rest.dropWhile (fun c => c ≠ '/') with
    | '/' :: tail =>
      if seg = [] ∨ tail = [] then none
      else some (acc ++ appsLit ++ seg ++ ['/'], tail)
    | _ => none
  else none

def searchPattern (acc : List Char) : List Char → Option (List Char × List Char)
  | [] => none
  | c :: cs =>
    match tryCandidate acc (c :: cs) with
    | some r => some r
    | none => searchPattern (acc ++ [c]) cs

/-- Embeds `re.match(r"^\d+/", suffix)`: does the suffix start with one or more
digits followed by a slash? -/
def startsWithDigitsSlash (s : List Char) : Bool :=
  match s.takeWhile Char.isDigit with
  | [] => false
  | _ :: _ =>
    match s.dropWhile Char.isDigit with
    | '/' :: _ => true
    | _ => false

/-- Embeds `SparkRestClient._modify_url`. -/
def modify_url (url : List Char) : List Char :=
  match searchPattern [] url with
  | some (pre, suffix) =>
    if startsWithDigitsSlash suffix then url
    else pre ++ ['1', '/'] ++ suffix
  | none => url

/-- Embeds the Python substring test `"/applications/" in url`. -/
def containsApps : List Char → Bool
  | [] => false
  | c :: cs => appsLit.isPrefixOf (c :: cs) || containsApps cs

/-- The HTTP environment: status code returned for each URL.  `raise_for_status`
raises exactly when `400 ≤ status < 600`. -/
structure HttpWorld where
  status : List Char → Nat

inductive GetResult
  /-- the JSON of the response to this URL is returned -/
  | success (url : List Char)
  /-- an HTTPError for this URL/status is raised; `cause` is the chained
  original `(url, status)` when the error came from the fallback retry -/
  | httpError (url : List Char) (status : Nat) (cause : Option (List Char × Nat))
  deriving DecidableEq

/-- Embeds `SparkRestClient._get`: result together with the list of URLs
actually requested, in order. -/
def sparkGet (w : HttpWorld) (url : List Char) : GetResult × List (List Char) :=
  let s1 := w.status url
  if 400 ≤ s1 ∧ s1 < 600 then
    if s1 = 404 ∧ containsApps url then
      let modifiedUrl := modify_url url
      let s2 := w.status modifiedUrl
      if 400 ≤ s2 ∧ s2 < 600 then
        (.httpError modifiedUrl s2 (some (url, 404)), [url, modifiedUrl])
      else (.success modifiedUrl, [url, modifiedUrl])
    else (.httpError url s1 none, [url])
  else (.success url, [url])

theorem sparkGet_calls_le_two (w : HttpWorld) (url : List Char) :
    (sparkGet w url).2.length ≤ 2 := by
  simp only [sparkGet]
  split
  · split
    · split <;> simp
    · simp
  · simp

theorem sparkGet_404_calls (w : HttpWorld) (url : List Char)
    (h404 : w.status url = 404) (happ : containsApps url = true) :
    (sparkGet w url).2 = [url, modify_url url] := by
  simp only [sparkGet, h404, happ]
  norm_num
  split <;> rfl

theorem sparkGet_404_chained (w : HttpWorld) (url : List Char)
    (h404 : w.status url = 404) (happ : containsApps url = true)
    (hfail : 400 ≤ w.status (modify_url url) ∧ w.status (modify_url url) < 600) :
    (sparkGet w url).1 =
      .httpError (modify_url url) (w.status (modify_url url)) (some (url, 404)) := by
  simp only [sparkGet, h404, happ, hfail]
  norm_num

/-- `takeWhile` runs through a block whose elements all satisfy the predicate. -/
theorem takeWhile_append_all {α : Type} (p : α → Bool) (l₁ l₂ : List α)
    (h : ∀ a ∈ l₁, p a = true) :
    (l₁ ++ l₂).takeWhile p = l₁ ++ l₂.takeWhile p := by
  induction l₁ with
  | nil => simp
  | cons a t ih =>
    have ha : p a = true := h a (by simp)
    simp [List.takeWhile, ha, ih fun b hb => h b (by simp [hb])]

theorem dropWhile_append_all {α : Type} (p : α → Bool) (l₁ l₂ : List α)
    (h : ∀ a ∈ l₁, p a = true) :
    (l₁ ++ l₂).dropWhile p = l₂.dropWhile p := by
  induction l₁ with
  | nil => simp
  | cons a t ih =>
    have ha : p a = true := h a (by simp)
    simp [List.dropWhile, ha, ih fun b hb => h b (by simp [hb])]

/-- On a URL whose path starts at the `/applications/` segment, the pattern
matches with group 1 ending right after the application ID. -/
theorem searchPattern_apps (appId suffix : List Char)
    (hne : appId ≠ []) (hslash : ∀ c ∈ appId, c ≠ '/') (hsuf : suffix ≠ []) :
    searchPattern [] (appsLit ++ appId ++ '/' :: suffix) =
      some (appsLit ++ appId ++ ['/'], suffix) := by
  have hpre : appsLit.isPrefixOf (appsLit ++ (appId ++ '/' :: suffix)) = true := by
    rw [List.isPrefixOf_iff_prefix]
    exact List.prefix_append _ _
  have hall : ∀ c ∈ appId, (fun c => decide (c ≠ '/')) c = true := by
    intro c hc
    simpa using hslash c hc
  have htc : tryCandidate [] (appsLit ++ appId ++ '/' :: suffix) =
      some (appsLit ++ appId ++ ['/'], suffix) := by
    simp only [tryCandidate, List.append_assoc, hpre, if_true]
    rw [List.drop_left' rfl]
    rw [takeWhile_append_all _ appId ('/' :: suffix) hall,
        dropWhile_append_all _ appId ('/' :: suffix) hall]
    simp [List.takeWhile, List.dropWhile, hne, hsuf]
  have : ∃ c cs, appsLit ++ appId ++ '/' :: suffix = c :: cs := by
    exact ⟨'/', _, rfl⟩
  rcases this with ⟨c, cs, hEq⟩
  rw [hEq]
  rw [hEq] at htc
  simp [searchPattern, htc]

/-- The rewrite inserts the literal `1/` right after the application-ID segment
when the suffix does not already start with an attempt number. -/
theorem modify_url_inserts (appId suffix : List Char)
    (hne : appId ≠ []) (hslash : ∀ c ∈ appId, c ≠ '/') (hsuf : suffix ≠ [])
    (hatt : startsWithDigitsSlash suffix = false) :
    modify_url (appsLit ++ appId ++ '/' :: suffix) =
      appsLit ++ appId ++ '/' :: '1' :: '/' :: suffix := by
  simp only [modify_url, searchPattern_apps appId suffix hne hslash hsuf, hatt]
  simp

/-- No rewrite when the suffix already starts with `<digits>/`. -/
theorem modify_url_keeps (appId suffix : List Char)
    (hne : appId ≠ []) (hslash : ∀ c ∈ appId, c ≠ '/') (hsuf : suffix ≠ [])
    (hatt : startsWithDigitsSlash suffix = true) :
    modify_url (appsLit ++ appId ++ '/' :: suffix) =
      appsLit ++ appId ++ '/' :: suffix := by
  simp only [modify_url, searchPattern_apps appId suffix hne hslash hsuf, hatt]
  simp

/-- C1: On a 404 for a URL containing `/applications/`, `_get` retries exactly
once with the rewritten URL (inserting `1/` after the application-ID segment
exactly when the suffix does not already start with digits followed by `/`),
makes at most two HTTP calls per logical operation, and if the retry also
fails with an HTTP error, raises the retry's error chained to the original
404. -/
theorem claim_C1 :
    (∀ w url, (sparkGet w url).2.length ≤ 2) ∧
    (∀ w url, w.status url = 404 → containsApps url = true →
      (sparkGet w url).2 = [url, modify_url url]) ∧
    (∀ w url, w.status url = 404 → containsApps url = true →
      400 ≤ w.status (modify_url url) → w.status (modify_url url) < 600 →
      (sparkGet w url).1 =
        .httpError (modify_url url) (w.status (modify_url url)) (some (url, 404))) ∧
    (∀ appId suffix, appId ≠ [] → (∀ c ∈ appId, c ≠ '/') → suffix ≠ [] →
      startsWithDigitsSlash suffix = false →
      modify_url (appsLit ++ appId ++ '/' :: suffix) =
        appsLit ++ appId ++ '/' :: '1' :: '/' :: suffix) ∧
    (∀ appId suffix, appId ≠ [] → (∀ c ∈ appId, c ≠ '/') → suffix ≠ [] →
      startsWithDigitsSlash suffix = true →
      modify_url (appsLit ++ appId ++ '/' :: suffix) = appsLit ++ appId ++ '/' :: suffix) :=
  ⟨sparkGet_calls_le_two, sparkGet_404_calls,
   fun w url h404 happ hlo hhi => sparkGet_404_chained w url h404 happ ⟨hlo, hhi⟩,
   modify_url_inserts, modify_url_keeps⟩

theorem claim_C1_witness :
    (sparkGet ⟨fun _ => 404⟩ "http://h/api/v1/applications/app-123/jobs".toList).2 =
      ["http://h/api/v1/applications/app-123/jobs".toList,
       "http://h/api/v1/applications/app-123/1/jobs".toList] ∧
    (sparkGet ⟨fun _ => 404⟩ "http://h/api/v1/applications/app-123/jobs".toList).1 =
      .httpError "http://h/api/v1/applications/app-123/1/jobs".toList 404
        (some ("http://h/api/v1/applications/app-123/jobs".toList, 404)) := by
  constructor
  · have h := claim_C1.2.1 ⟨fun _ => 404⟩
      "http://h/api/v1/applications/app-123/jobs".toList rfl (by decide)
    rw [h]
    decide
  · have h := claim_C1.2.2.1 ⟨fun _ => 404⟩
      "http://h/api/v1/applications/app-123/jobs".toList rfl (by decide)
      (by decide) (by decide)
    rw [h]
    decide

/-- C10: when the 404 fallback applies but the rewrite is inapplicable (the
suffix already starts with `<digits>/`, or the pattern does not match at all),
`_get` still issues a second HTTP request to the identical unmodified URL. -/
theorem claim_C10 (w : HttpWorld) (url : List Char)
    (h404 : w.status url = 404) (happ : containsApps url = true)
    (hnochange : modify_url url = url) :
    (sparkGet w url).2 = [url, url] ∧ (sparkGet w url).2.length = 2 := by
  have h := sparkGet_404_calls w url h404 happ
  rw [hnochange] at h
  exact ⟨h, by rw [h]; rfl⟩

theorem claim_C10_witness :
    (sparkGet ⟨fun _ => 404⟩ "http://h/api/v1/applications/app-123/2/jobs".toList).2 =
      ["http://h/api/v1/applications/app-123/2/jobs".toList,
       "http://h/api/v1/applications/app-123/2/jobs".toList] :=
  (claim_C10 ⟨fun _ => 404⟩ "http://h/api/v1/applications/app-123/2/jobs".toList
    rfl (by decide) (by decide)).1

/-! ## REST adapter: authentication (`SparkRestClient.__init__` / `_make_request`)

Python truthiness collapses `None` and `""` for the optional credential
strings, so they are modelled as plain strings with `""` meaning absent.
`__init__` sets `self.auth = (username, password)` only when both are truthy;
`_make_request` puts `Authorization: Bearer <token>` into the headers when the
token is truthy.  On the direct (session-less) path the request is sent via
`requests.get(..., headers=headers, auth=self.auth, ...)`; `requests` prepares
headers first and applies `auth` afterwards (`PreparedRequest.prepare` runs
`prepare_headers` before `prepare_auth`, and `HTTPBasicAuth` overwrites the
`Authorization` header).  On the session path the session's `auth` is `None`
(the EMR bootstrap never sets it), so only the header applies. -/

structure AuthConfigM where
  username : String
  password : String
  token : String

inductive AuthorizationValue
  | bearer (token : String)
  | basic (username password : String)
  deriving DecidableEq

/-- The `Authorization` header placed in `headers` by `_make_request`. -/
def headersAuthorization (cfg : AuthConfigM) : Option AuthorizationValue :=
  if cfg.token ≠ "" then some (.bearer cfg.token) else none

/-- `self.auth` as set by `SparkRestClient.__init__`. -/
def initBasicAuth (cfg : AuthConfigM) : Option (String × String) :=
  if cfg.username ≠ "" ∧ cfg.password ≠ "" then some (cfg.username, cfg.password)
  else none

/-- The `Authorization` value on the outgoing (prepared) request. -/
def preparedAuthorization (cfg : AuthConfigM) (hasSession : Bool) :
    Option AuthorizationValue :=
  if hasSession then headersAuthorization cfg
  else
    match initBasicAuth cfg with
    | some (u, p) => some (.basic u p)
    | none => headersAuthorization cfg

/-- C4 counterexample: with both basic credentials and a bearer token
configured, a direct (session-less) request carries the basic credentials in
its `Authorization` header, not the bearer token, because the HTTP library
applies the `auth` argument after the headers. -/
theorem claim_C4_counterexample :
    preparedAuthorization ⟨"alice", "secret", "tok123"⟩ false =
      some (.basic "alice" "secret") ∧
    preparedAuthorization ⟨"alice", "secret", "tok123"⟩ false ≠
      some (.bearer "tok123") := by
  constructor
  · rfl
  · intro h
    simp [preparedAuthorization, initBasicAuth] at h

/-- C4 (amended): when both basic credentials and a bearer token are
configured, exactly one authentication mechanism ends up on the outgoing
request: on session-based clients the bearer token is placed in the
`Authorization` header, while on direct requests the basic credentials
overwrite the bearer header (basic auth takes precedence there). -/
theorem claim_C4 (cfg : AuthConfigM)
    (hu : cfg.username ≠ "") (hp : cfg.password ≠ "") (ht : cfg.token ≠ "") :
    preparedAuthorization cfg true = some (.bearer cfg.token) ∧
    preparedAuthorization cfg false = some (.basic cfg.username cfg.password) ∧
    (∀ b, (preparedAuthorization cfg b).isSome = true) := by
  refine ⟨?_, ?_, ?_⟩
  · simp [preparedAuthorization, headersAuthorization, ht]
  · simp [preparedAuthorization, initBasicAuth, hu, hp]
  · intro b
    cases b <;>
      simp [preparedAuthorization, initBasicAuth, headersAuthorization, hu, hp, ht]

theorem claim_C4_witness :
    preparedAuthorization ⟨"u", "p", "t"⟩ true = some (.bearer "t") ∧
    preparedAuthorization ⟨"u", "p", "t"⟩ false = some (.basic "u" "p") := by
  have h := claim_C4 ⟨"u", "p", "t"⟩ (by decide) (by decide) (by decide)
  exact ⟨h.1, h.2.1⟩

/-! ## Analytics: `list_slowest_jobs`

Timestamps are modelled as epoch milliseconds (`Int`); the Python
`(completion_time - submission_time).total_seconds()` is the millisecond
difference divided by 1000, as a rational.  Present datetimes are always
truthy in Python, so `if job.completion_time and job.submission_time`
is exactly "both present". -/

structure JobDataM where
  jobId : Int
  name : String
  status : String
  submissionTime : Option Int
  completionTime : Option Int
  deriving DecidableEq

/-- Embeds `get_job_duration` inside `list_slowest_jobs`. -/
def get_job_duration (j : JobDataM) : ℚ :=
  match j.completionTime, j.submissionTime with
  | some c, some s => ((c - s : Int) : ℚ) / 1000
  | _, _ => 0

def notRunningJob (j : JobDataM) : Bool := j.status != "RUNNING"

/-- Embeds `list_slowest_jobs` (the part after the fetch). -/
def list_slowest_jobs (jobs : List JobDataM) (includeRunning : Bool) (n : Nat) :
    List JobDataM :=
  if jobs.isEmpty then []
  else
    let jobs2 := if includeRunning then jobs else jobs.filter notRunningJob
    if jobs2.isEmpty then []
    else (sortDescBy get_job_duration jobs2).take n

theorem list_slowest_jobs_eq (jobs : List JobDataM) (n : Nat) :
    list_slowest_jobs jobs false n =
      (sortDescBy get_job_duration (jobs.filter notRunningJob)).take n := by
  simp only [list_slowest_jobs, Bool.false_eq_true, if_false]
  split
  · rename_i h
    rw [List.isEmpty_iff.mp h]
    simp [sortDescBy]
  · split
    · rename_i h
      rw [List.isEmpty_iff.mp h]
      simp [sortDescBy]
    · rfl

/-- C2: `list_slowest_jobs` with `include_running=False` drops `RUNNING` jobs,
stable-sorts descending by `(completion - submission).total_seconds()`
(0 when a timestamp is absent; ties keep fetch order), and returns the first
`n`, so the result has length `min n eligible_count`; the spec's four-job
scenario returns the 5-minute job then the 2-minute job. -/
theorem claim_C2 :
    (∀ jobs n, (list_slowest_jobs jobs false n).length =
      min n (jobs.filter notRunningJob).length) ∧
    (∀ jobs n, (list_slowest_jobs jobs false n).Pairwise
      (fun a b => get_job_duration b ≤ get_job_duration a)) ∧
    (∀ jobs n j, j ∈ list_slowest_jobs jobs false n →
      j ∈ jobs ∧ j.status ≠ "RUNNING") ∧
    (∀ jobs (q : ℚ), (list_slowest_jobs jobs false jobs.length).filter
        (fun j => decide (get_job_duration j = q)) =
      (jobs.filter notRunningJob).filter (fun j => decide (get_job_duration j = q))) ∧
    (list_slowest_jobs
        [⟨0, "j0", "RUNNING", some 0, none⟩,
         ⟨1, "j1", "SUCCEEDED", some 0, some 120000⟩,
         ⟨2, "j2", "SUCCEEDED", some 0, some 300000⟩,
         ⟨3, "j3", "FAILED", some 0, some 60000⟩] false 2 =
      [⟨2, "j2", "SUCCEEDED", some 0, some 300000⟩,
       ⟨1, "j1", "SUCCEEDED", some 0, some 120000⟩]) := by
  refine ⟨?_, ?_, ?_, ?_, ?_⟩
  · intro jobs n
    rw [list_slowest_jobs_eq, List.length_take, length_sortDescBy]
  · intro jobs n
    rw [list_slowest_jobs_eq]
    exact (pairwise_sortDescBy get_job_duration _).sublist (List.take_sublist _ _)
  · intro jobs n j hj
    rw [list_slowest_jobs_eq] at hj
    have hmem := (mem_sortDescBy get_job_duration j _).mp
      ((List.take_sublist _ _).mem hj)
    have := List.mem_filter.mp hmem
    refine ⟨this.1, ?_⟩
    simpa [notRunningJob] using this.2
  · intro jobs q
    rw [list_slowest_jobs_eq]
    rw [List.take_of_length_le ?_, filter_sortDescBy]
    rw [length_sortDescBy]
    exact List.length_filter_le _ _
  · have hfil : ([⟨0, "j0", "RUNNING", some 0, none⟩,
         ⟨1, "j1", "SUCCEEDED", some 0, some 120000⟩,
         ⟨2, "j2", "SUCCEEDED", some 0, some 300000⟩,
         ⟨3, "j3", "FAILED", some 0, some 60000⟩] : List JobDataM).filter notRunningJob =
        [⟨1, "j1", "SUCCEEDED", some 0, some 120000⟩,
         ⟨2, "j2", "SUCCEEDED", some 0, some 300000⟩,
         ⟨3, "j3", "FAILED", some 0, some 60000⟩] := by decide
    simp only [list_slowest_jobs, List.isEmpty_cons, Bool.false_eq_true, if_false, hfil]
    norm_num [sortDescBy, insertDescBy, get_job_duration]

theorem claim_C2_witness :
    (⟨2, "j2", "SUCCEEDED", some 0, some 300000⟩ : JobDataM) ∈
        [(⟨0, "j0", "RUNNING", some 0, none⟩ : JobDataM),
         ⟨1, "j1", "SUCCEEDED", some 0, some 120000⟩,
         ⟨2, "j2", "SUCCEEDED", some 0, some 300000⟩,
         ⟨3, "j3", "FAILED", some 0, some 60000⟩] ∧
    (⟨2, "j2", "SUCCEEDED", some 0, some 300000⟩ : JobDataM).status ≠ "RUNNING" :=
  claim_C2.2.2.1
    [⟨0, "j0", "RUNNING", some 0, none⟩,
     ⟨1, "j1", "SUCCEEDED", some 0, some 120000⟩,
     ⟨2, "j2", "SUCCEEDED", some 0, some 300000⟩,
     ⟨3, "j3", "FAILED", some 0, some 60000⟩] 2
    ⟨2, "j2", "SUCCEEDED", some 0, some 300000⟩
    (by rw [claim_C2.2.2.2.2]; simp)

/-! ## Analytics: `list_slowest_sql_queries` pagination

The history server serves the SQL-execution collection in a fixed order with
`offset`/`length` slicing; `list_slowest_sql_queries` accumulates pages until a
page comes back empty or strictly shorter than `page_size`. -/

structure ExecutionDataM where
  id : Int
  status : String
  duration : Int
  deriving DecidableEq

/-- The server's `offset`/`length` slicing of a fixed-order collection
(`get_sql_list`). -/
def get_sql_list {α : Type} (coll : List α) (offset length : Nat) : List α :=
  (coll.drop offset).take length

/-- The fetch loop of `list_slowest_sql_queries`: returns the accumulated
items and the list of offsets actually requested. -/
def fetchSqlPages {α : Type} (coll : List α) (pageSize offset : Nat)
    (acc : List α) (offs : List Nat) : List α × List Nat :=
  if h1 : (get_sql_list coll offset pageSize).isEmpty then (acc, offs ++ [offset])
  else if h2 : (get_sql_list coll offset pageSize).length < pageSize then
    (acc ++ get_sql_list coll offset pageSize, offs ++ [offset])
  else fetchSqlPages coll pageSize (offset + pageSize)
    (acc ++ get_sql_list coll offset pageSize) (offs ++ [offset])
termination_by coll.length - offset
decreasing_by
  simp only [get_sql_list, List.isEmpty_iff, ← List.length_eq_zero,
    List.length_take, List.length_drop] at h1 h2
  omega

theorem fetchSqlPages_items {α : Type} (coll : List α) (pageSize : Nat)
    (hp : 0 < pageSize) : ∀ offset acc offs,
    (fetchSqlPages coll pageSize offset acc offs).1 = acc ++ coll.drop offset := by
  suffices H : ∀ n offset acc offs, coll.length - offset = n →
      (fetchSqlPages coll pageSize offset acc offs).1 = acc ++ coll.drop offset by
    exact fun offset acc offs => H _ offset acc offs rfl
  intro n
  induction n using Nat.strong_induction_on with
  | _ n ih =>
    intro offset acc offs hn
    rw [fetchSqlPages]
    split
    · rename_i h1
      simp only [get_sql_list, List.isEmpty_iff, ← List.length_eq_zero,
        List.length_take, List.length_drop] at h1
      have : coll.drop offset = [] := by
        rw [← List.length_eq_zero, List.length_drop]
        omega
      simp [this]
    · rename_i h1
      split
      · rename_i h2
        simp only [get_sql_list, List.length_take, List.length_drop] at h2
        have : (coll.drop offset).length ≤ pageSize := by
          rw [List.length_drop]
          omega
        simp [get_sql_list, List.take_of_length_le this]
      · rename_i h2
        simp only [get_sql_list, List.isEmpty_iff, ← List.length_eq_zero,
          List.length_take, List.length_drop] at h1 h2
        rw [ih (coll.length - (offset + pageSize)) (by omega) (offset + pageSize) _ _ rfl]
        simp only [get_sql_list, List.append_assoc]
        congr 1
        rw [← List.drop_drop]
        exact List.take_append_drop _ _

theorem range_offsets_step (p offset k : Nat) :
    (List.range (k + 1)).map (fun i => offset + i * p) =
      offset :: (List.range k).map (fun i => offset + p + i * p) := by
  rw [List.range_succ_eq_map, List.map_cons, List.map_map]
  congr 1
  · simp
  · apply List.map_congr_left
    intro i _
    simp only [Function.comp, Nat.succ_mul]
    ring

theorem fetchSqlPages_offsets {α : Type} (coll : List α) (pageSize : Nat)
    (hp : 0 < pageSize) : ∀ offset acc offs,
    (fetchSqlPages coll pageSize offset acc offs).2 =
      offs ++ (List.range ((coll.length - offset) / pageSize + 1)).map
        (fun i => offset + i * pageSize) := by
  suffices H : ∀ n offset acc offs, coll.length - offset = n →
      (fetchSqlPages coll pageSize offset acc offs).2 =
        offs ++ (List.range ((coll.length - offset) / pageSize + 1)).map
          (fun i => offset + i * pageSize) by
    exact fun offset acc offs => H _ offset acc offs rfl
  intro n
  induction n using Nat.strong_induction_on with
  | _ n ih =>
    intro offset acc offs hn
    rw [fetchSqlPages]
    split
    · rename_i h1
      simp only [get_sql_list, List.isEmpty_iff, ← List.length_eq_zero,
        List.length_take, List.length_drop] at h1
      have hdiv : (coll.length - offset) / pageSize = 0 := by
        apply Nat.div_eq_of_lt
        omega
      simp [hdiv, List.range_succ]
    · rename_i h1
      split
      · rename_i h2
        simp only [get_sql_list, List.length_take, List.length_drop] at h2
        have hdiv : (coll.length - offset) / pageSize = 0 := by
          apply Nat.div_eq_of_lt
          omega
        simp [hdiv, List.range_succ]
      · rename_i h2
        simp only [get_sql_list, List.isEmpty_iff, ← List.length_eq_zero,
          List.length_take, List.length_drop] at h1 h2
        rw [ih (coll.length - (offset + pageSize)) (by omega) (offset + pageSize) _ _ rfl]
        have hge : pageSize ≤ coll.length - offset := by omega
        have hdiv : (coll.length - offset) / pageSize =
            (coll.length - (offset + pageSize)) / pageSize + 1 := by
          rw [Nat.div_eq_sub_div hp hge]
          congr 2
          omega
        rw [hdiv, range_offsets_step pageSize offset
          ((coll.length - (offset + pageSize)) / pageSize + 1)]
        simp

/-- Embeds `list_slowest_sql_queries` (fetch loop, RUNNING filter, sort,
truncation). -/
def list_slowest_sql_queries (coll : List ExecutionDataM)
    (topN pageSize : Nat) (includeRunning : Bool) : List ExecutionDataM :=
  let fetched := (fetchSqlPages coll pageSize 0 [] []).1
  let allExecs := if includeRunning then fetched
    else fetched.filter (fun e => e.status != "RUNNING")
  (sortDescBy (fun e => e.duration) allExecs).take topN

/-- C6: the pagination loop requests offsets `0, p, 2p, ...`, stops exactly
after the first short (or empty) page, materializes the whole collection in
server order, and for 250 items with page size 100 issues exactly the three
fetches at offsets 0, 100, 200. -/
theorem claim_C6 :
    (∀ (coll : List ExecutionDataM) p, 0 < p →
      (fetchSqlPages coll p 0 [] []).1 = coll) ∧
    (∀ (coll : List ExecutionDataM) p, 0 < p →
      (fetchSqlPages coll p 0 [] []).2 =
        (List.range (coll.length / p + 1)).map (fun i => i * p)) ∧
    (∀ coll topN p, 0 < p →
      list_slowest_sql_queries coll topN p true =
        (sortDescBy (fun e => e.duration) coll).take topN) ∧
    (∀ (es : List ExecutionDataM), es.length = 250 →
      (fetchSqlPages es 100 0 [] []).2 = [0, 100, 200] ∧
      (fetchSqlPages es 100 0 [] []).2.length = 3 ∧
      (fetchSqlPages es 100 0 [] []).1 = es) := by
  have hitems : ∀ (coll : List ExecutionDataM) p, 0 < p →
      (fetchSqlPages coll p 0 [] []).1 = coll := by
    intro coll p hp
    rw [fetchSqlPages_items coll p hp 0 [] []]
    simp
  have hoffs : ∀ (coll : List ExecutionDataM) p, 0 < p →
      (fetchSqlPages coll p 0 [] []).2 =
        (List.range (coll.length / p + 1)).map (fun i => i * p) := by
    intro coll p hp
    rw [fetchSqlPages_offsets coll p hp 0 [] []]
    simp
  refine ⟨hitems, hoffs, ?_, ?_⟩
  · intro coll topN p hp
    simp only [list_slowest_sql_queries, hitems coll p hp, if_true]
  · intro es hlen
    refine ⟨?_, ?_, hitems es 100 (by norm_num)⟩
    · rw [hoffs es 100 (by norm_num), hlen]
      decide
    · rw [hoffs es 100 (by norm_num), hlen]
      decide

theorem claim_C6_witness :
    (fetchSqlPages (List.replicate 250 (⟨0, "COMPLETED", 0⟩ : ExecutionDataM))
        100 0 [] []).2 = [0, 100, 200] :=
  (claim_C6.2.2.2 (List.replicate 250 (⟨0, "COMPLETED", 0⟩ : ExecutionDataM))
    (by rw [List.length_replicate])).1

/-! ## Analytics: `get_executor_summary` and `get_job_bottlenecks`

Executor record fields are modelled as the integers the aggregation consumes.
`gc_pressure` is the expression from `get_job_bottlenecks`; divisions are
rational. -/

structure MemoryMetricsM where
  usedOnHeapStorageMemory : Int
  usedOffHeapStorageMemory : Int
  deriving DecidableEq

structure ExecutorSummaryM where
  id : String
  isActive : Bool
  memoryMetrics : MemoryMetricsM
  diskUsed : Int
  completedTasks : Int
  failedTasks : Int
  totalDuration : Int
  totalGCTime : Int
  totalInputBytes : Int
  totalShuffleRead : Int
  totalShuffleWrite : Int
  totalCores : Int
  maxMemory : Int
  deriving DecidableEq

structure ExecAgg where
  totalExecutors : Nat
  activeExecutors : Nat
  memoryUsed : Int
  diskUsed : Int
  completedTasks : Int
  failedTasks : Int
  totalDuration : Int
  totalGCTime : Int
  totalInputBytes : Int
  totalShuffleRead : Int
  totalShuffleWrite : Int
  deriving DecidableEq

/-- Embeds `get_executor_summary`: linear sums over all executors. -/
def get_executor_summary (executors : List ExecutorSummaryM) : ExecAgg :=
  { totalExecutors := executors.length
    activeExecutors := (executors.filter (fun e => e.isActive)).length
    memoryUsed := (executors.map (fun e =>
      e.memoryMetrics.usedOnHeapStorageMemory +
        e.memoryMetrics.usedOffHeapStorageMemory)).sum
    diskUsed := (executors.map (fun e => e.diskUsed)).sum
    completedTasks := (executors.map (fun e => e.completedTasks)).sum
    failedTasks := (executors.map (fun e => e.failedTasks)).sum
    totalDuration := (executors.map (fun e => e.totalDuration)).sum
    totalGCTime := (executors.map (fun e => e.totalGCTime)).sum
    totalInputBytes := (executors.map (fun e => e.totalInputBytes)).sum
    totalShuffleRead := (executors.map (fun e => e.totalShuffleRead)).sum
    totalShuffleWrite := (executors.map (fun e => e.totalShuffleWrite)).sum }

/-- Embeds the `gc_pressure` computation in `get_job_bottlenecks`. -/
def gc_pressure (executors : List ExecutorSummaryM) : ℚ :=
  let s := get_executor_summary executors
  if 0 < s.totalDuration then
    (s.totalGCTime : ℚ) / ((max s.totalDuration 1 : Int) : ℚ)
  else 0

/-- C7: `gc_pressure` equals `total_gc_time / max(total_duration, 1)` whenever
`total_duration > 0`, equals `0` when `total_duration = 0`, and its divisor is
always at least 1, so the computation never divides by zero. -/
theorem claim_C7 (executors : List ExecutorSummaryM) :
    (0 < (get_executor_summary executors).totalDuration →
      gc_pressure executors =
        ((get_executor_summary executors).totalGCTime : ℚ) /
          ((max (get_executor_summary executors).totalDuration 1 : Int) : ℚ)) ∧
    ((get_executor_summary executors).totalDuration = 0 →
      gc_pressure executors = 0) ∧
    (1 ≤ max (get_executor_summary executors).totalDuration 1) ∧
    ((0 : ℚ) < ((max (get_executor_summary executors).totalDuration 1 : Int) : ℚ)) := by
  refine ⟨?_, ?_, le_max_right _ _, ?_⟩
  · intro h
    simp only [gc_pressure, if_pos h]
  · intro h
    simp only [gc_pressure, h]
    norm_num
  · have : (1 : Int) ≤ max (get_executor_summary executors).totalDuration 1 :=
      le_max_right _ _
    exact_mod_cast lt_of_lt_of_le Int.zero_lt_one this

theorem claim_C7_witness :
    gc_pressure [⟨"1", true, ⟨0, 0⟩, 0, 0, 0, 0, 5, 0, 0, 0, 4, 0⟩] = 0 ∧
    gc_pressure [⟨"1", true, ⟨0, 0⟩, 0, 0, 0, 10, 5, 0, 0, 0, 4, 0⟩] =
      ((get_executor_summary [⟨"1", true, ⟨0, 0⟩, 0, 0, 0, 10, 5, 0, 0, 0, 4, 0⟩]).totalGCTime : ℚ) /
        ((max (get_executor_summary
          [⟨"1", true, ⟨0, 0⟩, 0, 0, 0, 10, 5, 0, 0, 0, 4, 0⟩]).totalDuration 1 : Int) : ℚ) :=
  ⟨(claim_C7 [⟨"1", true, ⟨0, 0⟩, 0, 0, 0, 0, 5, 0, 0, 0, 4, 0⟩]).2.1 (by decide),
   (claim_C7 [⟨"1", true, ⟨0, 0⟩, 0, 0, 0, 10, 5, 0, 0, 0, 4, 0⟩]).1 (by decide)⟩

/-! ## Analytics: high-spill stage detection in `get_job_bottlenecks`

`if stage.memory_bytes_spilled and stage.memory_bytes_spilled > 100*1024*1024`
uses Python truthiness: `None` and `0` are falsy. -/

structure StageDataM where
  stageId : Int
  attemptId : Int
  name : String
  status : String
  memoryBytesSpilled : Option Int
  diskBytesSpilled : Option Int
  submissionTime : Option Int
  completionTime : Option Int
  numTasks : Int
  numFailedTasks : Int
  deriving DecidableEq

def optTruthy : Option Int → Bool
  | none => false
  | some v => v != 0

def highSpillCond (s : StageDataM) : Bool :=
  optTruthy s.memoryBytesSpilled &&
    decide (100 * 1024 * 1024 < s.memoryBytesSpilled.getD 0)

structure SpillEntry where
  stageId : Int
  attemptId : Int
  name : String
  memorySpilledMb : ℚ
  diskSpilledMb : ℚ
  deriving DecidableEq

def toSpillEntry (s : StageDataM) : SpillEntry :=
  { stageId := s.stageId
    attemptId := s.attemptId
    name := s.name
    memorySpilledMb := ((s.memoryBytesSpilled.getD 0 : Int) : ℚ) / (1024 * 1024)
    diskSpilledMb :=
      if optTruthy s.diskBytesSpilled then
        ((s.diskBytesSpilled.getD 0 : Int) : ℚ) / (1024 * 1024)
      else 0 }

/-- Embeds the `high_spill_stages` accumulation and its
`sort(key=memory_spilled_mb, reverse=True)`. -/
def high_spill_stages (stages : List StageDataM) : List SpillEntry :=
  sortDescBy (fun e => e.memorySpilledMb) ((stages.filter highSpillCond).map toSpillEntry)

/-- `resource_bottlenecks["memory_spill_stages"] = high_spill_stages[:top_n]`. -/
def memory_spill_stages (stages : List StageDataM) (topN : Nat) : List SpillEntry :=
  (high_spill_stages stages).take topN

def stage150Spill : StageDataM :=
  ⟨1, 0, "s150", "COMPLETE", some (150 * 1024 * 1024), some 0, none, none, 10, 0⟩

def stage50Spill : StageDataM :=
  ⟨2, 0, "s50", "COMPLETE", some (50 * 1024 * 1024), some 0, none, none, 10, 0⟩

/-- C8: a stage contributes a high-spill entry iff its `memory_bytes_spilled`
is present and strictly greater than `100 * 1024 * 1024`; entries are sorted
descending by spilled memory and at most `top_n` are reported; for spills
`[150MiB, 50MiB]` only the 150MiB stage is included. -/
theorem claim_C8 :
    (∀ stages e, e ∈ high_spill_stages stages ↔
      ∃ s ∈ stages, highSpillCond s = true ∧ toSpillEntry s = e) ∧
    (∀ s : StageDataM, highSpillCond s = true ↔
      ∃ v, s.memoryBytesSpilled = some v ∧ 100 * 1024 * 1024 < v) ∧
    (∀ stages, (high_spill_stages stages).Pairwise
      (fun a b => b.memorySpilledMb ≤ a.memorySpilledMb)) ∧
    (∀ stages topN, (memory_spill_stages stages topN).length ≤ topN ∧
      (memory_spill_stages stages topN).Pairwise
        (fun a b => b.memorySpilledMb ≤ a.memorySpilledMb)) ∧
    (toSpillEntry stage150Spill ∈ high_spill_stages [stage150Spill, stage50Spill] ∧
     toSpillEntry stage50Spill ∉ high_spill_stages [stage150Spill, stage50Spill] ∧
     (high_spill_stages [stage150Spill, stage50Spill]).length = 1) := by
  have hmem : ∀ stages e, e ∈ high_spill_stages stages ↔
      ∃ s ∈ stages, highSpillCond s = true ∧ toSpillEntry s = e := by
    intro stages e
    rw [high_spill_stages, mem_sortDescBy, List.mem_map]
    constructor
    · rintro ⟨s, hs, rfl⟩
      rcases List.mem_filter.mp hs with ⟨h1, h2⟩
      exact ⟨s, h1, h2, rfl⟩
    · rintro ⟨s, h1, h2, rfl⟩
      exact ⟨s, List.mem_filter.mpr ⟨h1, h2⟩, rfl⟩
  have hfil : ([stage150Spill, stage50Spill] : List StageDataM).filter highSpillCond =
      [stage150Spill] := by decide
  refine ⟨hmem, ?_, ?_, ?_, ?_, ?_, ?_⟩
  · intro s
    cases hv : s.memoryBytesSpilled with
    | none => simp [highSpillCond, optTruthy, hv]
    | some v =>
      simp only [highSpillCond, optTruthy, hv, Option.getD_some, Bool.and_eq_true,
        bne_iff_ne, ne_eq, decide_eq_true_eq]
      constructor
      · rintro ⟨_, hlt⟩
        exact ⟨v, rfl, hlt⟩
      · rintro ⟨w, hw, hlt⟩
        cases hw
        exact ⟨by omega, hlt⟩
  · intro stages
    exact pairwise_sortDescBy _ _
  · intro stages topN
    refine ⟨?_, (pairwise_sortDescBy _ _).sublist (List.take_sublist _ _)⟩
    simp [memory_spill_stages]
  · exact (hmem _ _).mpr ⟨stage150Spill, by simp, by decide, rfl⟩
  · intro h
    rcases (hmem _ _).mp h with ⟨s, hs, hcond, hEq⟩
    rcases List.mem_cons.mp hs with rfl | hs
    · have h2 : (157286400 : ℚ) / (1024 * 1024) = (52428800 : ℚ) / (1024 * 1024) := by
        have := congrArg SpillEntry.memorySpilledMb hEq
        simpa [toSpillEntry, stage150Spill, stage50Spill] using this
      norm_num at h2
    · rcases List.mem_singleton.mp hs with rfl
      have : highSpillCond stage50Spill = false := by decide
      rw [this] at hcond
      exact Bool.false_ne_true hcond
  · rw [high_spill_stages, length_sortDescBy, hfil]
    rfl

theorem claim_C8_witness :
    toSpillEntry stage150Spill ∈ high_spill_stages [stage150Spill, stage50Spill] ∧
    highSpillCond stage150Spill = true :=
  ⟨claim_C8.2.2.2.2.1,
   (claim_C8.2.1 stage150Spill).mpr ⟨150 * 1024 * 1024, rfl, by norm_num⟩⟩

/-! ## Analytics: `get_resource_usage_timeline` replay

The merged event stream (already sorted by timestamp) is replayed with running
totals; every event appends one resource point.  `executor_remove` events carry
no resource payload, so only the active-executor count changes there. -/

inductive TimelineEvent
  | executorAdd (timestamp : Int) (cores : Int) (memoryMb : ℚ)
  | executorRemove (timestamp : Int)
  | stageStart (timestamp : Int)
  | stageEnd (timestamp : Int)

structure ResourcePoint where
  activeExecutors : Int
  totalCores : Int
  totalMemoryMb : ℚ

/-- One step of the replay loop over `timeline_events`. -/
def applyEvent (p : ResourcePoint) : TimelineEvent → ResourcePoint
  | .executorAdd _ cores memoryMb =>
    { p with activeExecutors := p.activeExecutors + 1
             totalCores := p.totalCores + cores
             totalMemoryMb := p.totalMemoryMb + memoryMb }
  | .executorRemove _ => { p with activeExecutors := p.activeExecutors - 1 }
  | .stageStart _ => p
  | .stageEnd _ => p

/-- The `resource_timeline` list: the counters after each event, in order. -/
def replayTimeline (p : ResourcePoint) : List TimelineEvent → List ResourcePoint
  | [] => []
  | e :: es => applyEvent p e :: replayTimeline (applyEvent p e) es

def initialPoint : ResourcePoint := ⟨0, 0, 0⟩

/-- `max([...] + [0])` over the replayed points. -/
def maxOverD0 (f : ResourcePoint → Int) (points : List ResourcePoint) : Int :=
  points.foldr (fun p m => max (f p) m) 0

def peak_executors (events : List TimelineEvent) : Int :=
  maxOverD0 (fun p => p.activeExecutors) (replayTimeline initialPoint events)

def peak_cores (events : List TimelineEvent) : Int :=
  maxOverD0 (fun p => p.totalCores) (replayTimeline initialPoint events)

def isExecutorAdd : TimelineEvent → Bool
  | .executorAdd _ _ _ => true
  | _ => false

theorem maxOverD0_ge (f : ResourcePoint → Int) (points : List ResourcePoint) :
    ∀ p ∈ points, f p ≤ maxOverD0 f points := by
  induction points with
  | nil => simp
  | cons q qs ih =>
    intro p hp
    rcases List.mem_cons.mp hp with rfl | hp
    · exact le_max_left _ _
    · exact le_trans (ih p hp) (le_max_right _ _)

theorem maxOverD0_attained (f : ResourcePoint → Int) (points : List ResourcePoint) :
    maxOverD0 f points = 0 ∨ ∃ p ∈ points, f p = maxOverD0 f points := by
  induction points with
  | nil => left; rfl
  | cons q qs ih =>
    rcases le_total (f q) (maxOverD0 f qs) with h | h
    · rcases ih with h0 | ⟨p, hp, hEq⟩
      · left
        simp [maxOverD0] at *
        omega
      · right
        exact ⟨p, by simp [hp], by simp only [maxOverD0, List.foldr] at *; omega⟩
    · right
      exact ⟨q, by simp, by simp only [maxOverD0, List.foldr] at *; omega⟩

theorem replayTimeline_cores_chain (events : List TimelineEvent)
    (hadd : ∀ ts c m, TimelineEvent.executorAdd ts c m ∈ events → 0 ≤ c) :
    ∀ p, List.Chain (fun a b => a.totalCores ≤ b.totalCores) p
      (replayTimeline p events) := by
  induction events with
  | nil => intro p; exact List.Chain.nil
  | cons e es ih =>
    intro p
    refine List.Chain.cons ?_ (ih (fun ts c m hm => hadd ts c m (by simp [hm])) _)
    cases e with
    | executorAdd ts c m =>
      have := hadd ts c m (by simp)
      simp [applyEvent]
      omega
    | executorRemove ts => simp [applyEvent]
    | stageStart ts => simp [applyEvent]
    | stageEnd ts => simp [applyEvent]

/-- C9: an `executor_remove` event decrements the active-executor total by
exactly one and leaves `total_cores` / `total_memory_mb` unchanged; only
`executor_add` events change the capacity counters, so (with non-negative core
counts on add events) `total_cores` is non-decreasing over the whole replay;
the peaks are the maxima of the running totals over the replay, `0` for an
empty timeline. -/
theorem claim_C9 :
    (∀ (p : ResourcePoint) ts, applyEvent p (.executorRemove ts) =
      { p with activeExecutors := p.activeExecutors - 1 }) ∧
    (∀ (p : ResourcePoint) e, isExecutorAdd e = false →
      (applyEvent p e).totalCores = p.totalCores ∧
      (applyEvent p e).totalMemoryMb = p.totalMemoryMb) ∧
    (∀ events, (∀ ts c m, TimelineEvent.executorAdd ts c m ∈ events → 0 ≤ c) →
      List.Chain (fun a b => a.totalCores ≤ b.totalCores) initialPoint
        (replayTimeline initialPoint events)) ∧
    (peak_executors [] = 0 ∧ peak_cores [] = 0) ∧
    (∀ events p, p ∈ replayTimeline initialPoint events →
      p.activeExecutors ≤ peak_executors events ∧ p.totalCores ≤ peak_cores events) ∧
    (∀ events, (peak_executors events = 0 ∨
        ∃ p ∈ replayTimeline initialPoint events,
          p.activeExecutors = peak_executors events) ∧
      (peak_cores events = 0 ∨
        ∃ p ∈ replayTimeline initialPoint events,
          p.totalCores = peak_cores events)) := by
  refine ⟨fun p ts => rfl, ?_, ?_, ⟨rfl, rfl⟩, ?_, ?_⟩
  · intro p e he
    cases e with
    | executorAdd ts c m => simp [isExecutorAdd] at he
    | executorRemove ts => exact ⟨rfl, rfl⟩
    | stageStart ts => exact ⟨rfl, rfl⟩
    | stageEnd ts => exact ⟨rfl, rfl⟩
  · intro events hadd
    exact replayTimeline_cores_chain events hadd initialPoint
  · intro events p hp
    exact ⟨maxOverD0_ge _ _ p hp, maxOverD0_ge _ _ p hp⟩
  · intro events
    exact ⟨maxOverD0_attained _ _, maxOverD0_attained _ _⟩

theorem claim_C9_witness :
    List.Chain (fun a b => a.totalCores ≤ b.totalCores) initialPoint
      (replayTimeline initialPoint
        [.executorAdd 0 4 1024, .executorAdd 1 2 512, .executorRemove 2]) :=
  claim_C9.2.2.1 [.executorAdd 0 4 1024, .executorAdd 1 2 512, .executorRemove 2]
    (by
      intro ts c m hm
      simp only [List.mem_cons, List.not_mem_nil, or_false,
        TimelineEvent.executorAdd.injEq, reduceCtorEq] at hm
      rcases hm with ⟨_, rfl, _⟩ | ⟨_, rfl, _⟩ <;> norm_num)

/-! ## EMR persistent-UI session bootstrap (`EMRPersistentUIClient.initialize`)

`initialize` runs create → describe → presigned-URL → session strictly in
order, with no polling; the describe step's status must be `ATTACHED`.
The cloud API's behaviour is the environment; the client state holds
`persistent_ui_id`, `presigned_url` and `base_url` (all `None` initially). -/

structure EMRState where
  persistentUiId : Option String
  presignedUrl : Option String
  baseUrl : Option String
  deriving DecidableEq

/-- What the cloud control API and the presigned endpoint return. -/
structure EMREnv where
  /-- `create_persistent_app_ui`: assigned UI id, or a client error -/
  createResult : Except String String
  /-- `describe_persistent_app_ui`: `PersistentAppUIStatus` (absent field is
  `None`), or a client error -/
  describeResult : Except String (Option String)
  /-- `get_persistent_app_ui_presigned_url`: the presigned URL -/
  presignedUrlValue : String
  /-- whether the initial session GET succeeds -/
  sessionGetOk : Bool

inductive BootstrapStep
  | create
  | describe
  | presignedUrl
  | session
  deriving DecidableEq

inductive BootstrapError
  /-- a cloud-API `ClientError` or HTTP failure, propagated unchanged -/
  | clientError (message : String)
  /-- `ValueError(f"EMR Persistent UI status is {ui_status}, expected ATTACHED")` -/
  | stateError (status : Option String)
  deriving DecidableEq

/-- `urlparse(url)` scheme/netloc extraction:
`f"{parsed_url.scheme}://{parsed_url.netloc}"`. -/
def extractBaseUrl (url : List Char) : List Char :=
  let schemeSep : List Char := "://".toList
  let rec split (acc : List Char) : List Char → Option (List Char × List Char)
    | [] => none
    | c :: cs =>
      if schemeSep.isPrefixOf (c :: cs) then some (acc, (c :: cs).drop 3)
      else split (acc ++ [c]) cs
  match split [] url with
  | some (scheme, rest) =>
    scheme ++ schemeSep ++ rest.takeWhile (fun c => c ≠ '/' ∧ c ≠ '?' ∧ c ≠ '#')
  | none => schemeSep

/-- Embeds `EMRPersistentUIClient.initialize`: the outcome, the final client
state, and the steps performed in order. -/
def emrInitialize (env : EMREnv) (st : EMRState) :
    Except BootstrapError (List Char) × EMRState × List BootstrapStep :=
  match env.createResult with
  | .error e => (.error (.clientError e), st, [.create])
  | .ok uiId =>
    let st1 : EMRState := { st with persistentUiId := some uiId }
    match env.describeResult with
    | .error e => (.error (.clientError e), st1, [.create, .describe])
    | .ok uiStatus =>
      if uiStatus ≠ some "ATTACHED" then
        (.error (.stateError uiStatus), st1, [.create, .describe])
      else
        let presigned := env.presignedUrlValue.toList
        let st2 : EMRState := { st1 with presignedUrl := some (String.mk presigned)
                                         baseUrl := some (String.mk (extractBaseUrl presigned)) }
        if env.sessionGetOk then
          (.ok (extractBaseUrl presigned), st2,
            [.create, .describe, .presignedUrl, .session])
        else
          (.error (.clientError "session"), st2,
            [.create, .describe, .presignedUrl, .session])

/-- C3: when the describe step reports any status other than `ATTACHED`,
`initialize` fails with the bootstrap-state error, performs neither the
presigned-URL step nor the session step, leaves `presigned_url` and
`base_url` unchanged (still unset on a fresh client), and any fresh attempt
starts again at the create step. -/
theorem claim_C3 (env : EMREnv) (st : EMRState) (uiId : String) (uiStatus : Option String)
    (hc : env.createResult = .ok uiId)
    (hd : env.describeResult = .ok uiStatus)
    (hns : uiStatus ≠ some "ATTACHED") :
    (emrInitialize env st).1 = .error (.stateError uiStatus) ∧
    (emrInitialize env st).2.2 = [.create, .describe] ∧
    BootstrapStep.presignedUrl ∉ (emrInitialize env st).2.2 ∧
    BootstrapStep.session ∉ (emrInitialize env st).2.2 ∧
    (emrInitialize env st).2.1.presignedUrl = st.presignedUrl ∧
    (emrInitialize env st).2.1.baseUrl = st.baseUrl ∧
    (∀ env' st', ((emrInitialize env' st').2.2).head? = some .create) := by
  have hrun : emrInitialize env st =
      (.error (.stateError uiStatus),
        { st with persistentUiId := some uiId }, [.create, .describe]) := by
    simp only [emrInitialize, hc, hd, if_pos hns]
  refine ⟨by rw [hrun], by rw [hrun], by rw [hrun]; simp, by rw [hrun]; simp,
    by rw [hrun], by rw [hrun], ?_⟩
  intro env' st'
  rcases henv : env'.createResult with e | uiId'
  · simp [emrInitialize, henv]
  · rcases hdr : env'.describeResult with e | uiStatus'
    · simp [emrInitialize, henv, hdr]
    · by_cases hs : uiStatus' ≠ some "ATTACHED"
      · simp [emrInitialize, henv, hdr, hs]
      · by_cases hg : env'.sessionGetOk <;>
          simp [emrInitialize, henv, hdr, hs, hg]

theorem claim_C3_witness :
    (emrInitialize ⟨.ok "ui-1", .ok (some "PENDING"), "https://host.example/x", true⟩
      ⟨none, none, none⟩).1 = .error (.stateError (some "PENDING")) ∧
    (emrInitialize ⟨.ok "ui-1", .ok (some "PENDING"), "https://host.example/x", true⟩
      ⟨none, none, none⟩).2.1.presignedUrl = none := by
  have h := claim_C3 ⟨.ok "ui-1", .ok (some "PENDING"), "https://host.example/x", true⟩
    ⟨none, none, none⟩ "ui-1" (some "PENDING") rfl rfl (by decide)
  exact ⟨h.1, h.2.2.2.2.1⟩

/-! ## Timestamp normalization (`parse_datetime` validators in `spark_types.py`)

The validators accept epoch-millisecond numbers
(`datetime.fromtimestamp(value / 1000)`, a naive datetime in the local
timezone, modelled by an explicit offset), and strings ending in `GMT`
(`value.replace("GMT", "+0000")` — Python `replace` rewrites every
occurrence — then `datetime.strptime(..., "%Y-%m-%dT%H:%M:%S.%f%z")`).
Any other value, and any string the parse rejects, is returned unchanged.
Instants are microseconds since the epoch; numbers are exact rationals. -/

def gmtLit : List Char := "GMT".toList

/-- `value.replace("GMT", "+0000")`: left-to-right, non-overlapping, every
occurrence. -/
def replaceGMT : List Char → List Char
  | 'G' :: 'M' :: 'T' :: cs => '+' :: '0' :: '0' :: '0' :: '0' :: replaceGMT cs
  | c :: cs => c :: replaceGMT cs
  | [] => []

/-- Number of (non-overlapping) occurrences of `"GMT"`. -/
def countGMT : List Char → Nat
  | 'G' :: 'M' :: 'T' :: cs => 1 + countGMT cs
  | _ :: cs => countGMT cs
  | [] => 0

def digitsToInt (ds : List Char) : Int :=
  ds.foldl (fun a c => a * 10 + ((c.toNat : Int) - 48)) 0

def readFixedDigits (n : Nat) (cs : List Char) : Option (Int × List Char) :=
  let ds := cs.take n
  if ds.length = n ∧ ds.all Char.isDigit then some (digitsToInt ds, cs.drop n)
  else none

def readVarDigits (maxLen : Nat) (cs : List Char) : Option (Int × List Char) :=
  let ds := (cs.take maxLen).takeWhile Char.isDigit
  if ds.isEmpty then none else some (digitsToInt ds, cs.drop ds.length)

def readFrac (cs : List Char) : Option (Int × Nat × List Char) :=
  let ds := (cs.take 6).takeWhile Char.isDigit
  if ds.isEmpty then none else some (digitsToInt ds, ds.length, cs.drop ds.length)

def expectChar (c : Char) : List Char → Option (List Char)
  | [] => none
  | x :: xs => if x = c then some xs else none

def isLeapYear (y : Int) : Bool :=
  (y % 4 == 0 && y % 100 != 0) || y % 400 == 0

def daysInMonth (y m : Int) : Int :=
  if m = 2 then (if isLeapYear y then 29 else 28)
  else if m = 4 ∨ m = 6 ∨ m = 9 ∨ m = 11 then 30
  else 31

/-- Days between the proleptic-Gregorian civil date and 1970-01-01. -/
def daysFromCivil (y m d : Int) : Int :=
  let y2 := if m ≤ 2 then y - 1 else y
  let era := (if 0 ≤ y2 then y2 else y2 - 399) / 400
  let yoe := y2 - era * 400
  let mp := (m + 9) % 12
  let doy := (153 * mp + 2) / 5 + d - 1
  let doe := yoe * 365 + yoe / 4 - yoe / 100 + doy
  era * 146097 + doe - 719468

/-- `%z`: `Z`, or `[+-]HH[:]MM` with the offset strictly below 24 hours
(larger offsets make `timezone(...)` raise, hence a parse failure). -/
def parseTzOffset (cs : List Char) : Option (Int × List Char) :=
  match cs with
  | [] => none
  | 'Z' :: rest => some (0, rest)
  | s :: rest =>
    if s = '+' ∨ s = '-' then
      match readFixedDigits 2 rest with
      | some (hh, rest1) =>
        let rest1b := match rest1 with
          | ':' :: r => r
          | r => r
        match readFixedDigits 2 rest1b with
        | some (mm, rest2) =>
          let total := hh * 3600 + mm * 60
          if total < 86400 then
            some ((if s = '-' then -total else total), rest2)
          else none
        | none => none
      | none => none
    else none

/-- `datetime.strptime(s, "%Y-%m-%dT%H:%M:%S.%f%z")` as the instant in epoch
microseconds; `none` is a `ValueError` (bad shape or out-of-range fields). -/
def strptimeIsoTz (cs : List Char) : Option Int :=
  match readFixedDigits 4 cs with
  | none => none
  | some (y, r1) =>
  match expectChar '-' r1 with
  | none => none
  | some r2 =>
  match readVarDigits 2 r2 with
  | none => none
  | some (mo, r3) =>
  match expectChar '-' r3 with
  | none => none
  | some r4 =>
  match readVarDigits 2 r4 with
  | none => none
  | some (d, r5) =>
  match expectChar 'T' r5 with
  | none => none
  | some r6 =>
  match readVarDigits 2 r6 with
  | none => none
  | some (h, r7) =>
  match expectChar ':' r7 with
  | none => none
  | some r8 =>
  match readVarDigits 2 r8 with
  | none => none
  | some (mi, r9) =>
  match expectChar ':' r9 with
  | none => none
  | some r10 =>
  match readVarDigits 2 r10 with
  | none => none
  | some (s, r11) =>
  match expectChar '.' r11 with
  | none => none
  | some r12 =>
  match readFrac r12 with
  | none => none
  | some (frac, fracLen, r13) =>
  match parseTzOffset r13 with
  | none => none
  | some (off, r14) =>
    if r14 = [] ∧ 1 ≤ y ∧ y ≤ 9999 ∧ 1 ≤ mo ∧ mo ≤ 12 ∧ 1 ≤ d ∧ d ≤ daysInMonth y mo ∧
        h ≤ 23 ∧ mi ≤ 59 ∧ s ≤ 59 then
      some ((daysFromCivil y mo d * 86400 + h * 3600 + mi * 60 + s - off) * 1000000
        + frac * 10 ^ (6 - fracLen))
    else none

/-- A JSON value arriving at the timestamp validator. -/
inductive TimeJson
  | num (epochMs : ℚ)
  | str (s : List Char)
  | null
  deriving DecidableEq

/-- A validator output: a naive local datetime (wall clock, epoch µs frame),
an aware datetime (instant, epoch µs), or the value passed through unparsed. -/
inductive TimeValue
  | naiveDt (wallUs : ℚ)
  | awareDt (instantUs : Int)
  | passthrough (v : TimeJson)
  deriving DecidableEq

/-- `datetime.fromtimestamp(ms / 1000)` in a local timezone of offset
`tzOffsetUs` microseconds: the naive wall-clock reading. -/
def fromtimestampUs (tzOffsetUs : Int) (ms : ℚ) : ℚ := ms * 1000 + tzOffsetUs

def endsWithGMT (s : List Char) : Bool := gmtLit.isSuffixOf s

/-- Embeds the `parse_datetime` field validators of
`ApplicationAttemptInfo`/`JobData` (and the identical ones elsewhere). -/
def parse_datetime (tzOffsetUs : Int) : TimeJson → TimeValue
  | .num q => .naiveDt (fromtimestampUs tzOffsetUs q)
  | .str s =>
    if endsWithGMT s then
      match strptimeIsoTz (replaceGMT s) with
      | some us => .awareDt us
      | none => .passthrough (.str s)
    else .passthrough (.str s)
  | .null => .passthrough .null

/-- The instant a parsed value denotes, in epoch microseconds (a naive value is
read in the local timezone). -/
def instantUs (tzOffsetUs : Int) : TimeValue → Option ℚ
  | .naiveDt w => some (w - tzOffsetUs)
  | .awareDt i => some (i : ℚ)
  | .passthrough _ => none

theorem countGMT_cons_eq (c : Char) (cs : List Char)
    (h : ∀ cs', c = 'G' → cs = 'M' :: 'T' :: cs' → False) :
    countGMT (c :: cs) = countGMT cs := by
  rw [countGMT.eq_def]
  split
  · rename_i cs' heq
    rw [List.cons.injEq] at heq
    exact absurd (h cs' heq.1 heq.2) not_false
  · rename_i c2 cs2 heq
    rw [List.cons.injEq] at heq
    rw [heq.2]
  · rename_i heq
    exact absurd heq (List.cons_ne_nil c cs)

theorem replaceGMT_cons_eq (c : Char) (cs : List Char)
    (h : ∀ cs', c = 'G' → cs = 'M' :: 'T' :: cs' → False) :
    replaceGMT (c :: cs) = c :: replaceGMT cs := by
  rw [replaceGMT.eq_def]
  split
  · rename_i cs' heq
    rw [List.cons.injEq] at heq
    exact absurd (h cs' heq.1 heq.2) not_false
  · rename_i c2 cs2 heq
    rw [List.cons.injEq] at heq
    rw [heq.1, heq.2]
  · rename_i heq
    exact absurd heq (List.cons_ne_nil c cs)

/-- When the trailing `GMT` is the only occurrence, replacing every occurrence
is the same as replacing the trailing one. -/
theorem replaceGMT_single : ∀ l : List Char, countGMT l = 0 →
    replaceGMT (l ++ gmtLit) = l ++ "+0000".toList := by
  intro l
  induction l using countGMT.induct with
  | case1 cs ih =>
    intro h0
    simp [countGMT] at h0
  | case2 c cs h ih =>
    intro h0
    rw [countGMT_cons_eq c cs h] at h0
    have h' : ∀ cs', c = 'G' → cs ++ gmtLit = 'M' :: 'T' :: cs' → False := by
      intro cs' hG heq
      match cs, heq with
      | [], heq => simp [gmtLit] at heq
      | [x], heq =>
        rw [show [x] ++ gmtLit = x :: 'G' :: 'M' :: 'T' :: [] from rfl] at heq
        simp at heq
      | x :: y :: rest, heq =>
        rw [List.cons_append, List.cons_append, List.cons.injEq, List.cons.injEq] at heq
        exact h rest hG (by rw [heq.1, heq.2.1])
    rw [List.cons_append, replaceGMT_cons_eq c _ h', ih h0, List.cons_append]
  | case3 =>
    intro _
    decide

theorem endsWithGMT_append (l : List Char) : endsWithGMT (l ++ gmtLit) = true := by
  rw [endsWithGMT, List.isSuffixOf_iff_suffix]
  exact List.suffix_append l gmtLit

/-- C5: numeric values are read as epoch milliseconds; a string whose trailing
`GMT` is its only occurrence is normalized by replacing that `GMT` with
`+0000` and parsing as `%Y-%m-%dT%H:%M:%S.%f%z` (falling back to passthrough
on failure); any other string and `None` pass through unparsed; and
`"2023-01-01T12:34:56.789GMT"` and epoch-milliseconds `1672576496789` denote
the identical instant. -/
theorem claim_C5 :
    (∀ tzUs (q : ℚ), instantUs tzUs (parse_datetime tzUs (.num q)) = some (q * 1000)) ∧
    (∀ tzUs (l : List Char), countGMT l = 0 →
      parse_datetime tzUs (.str (l ++ gmtLit)) =
        (match strptimeIsoTz (l ++ "+0000".toList) with
         | some us => .awareDt us
         | none => .passthrough (.str (l ++ gmtLit)))) ∧
    (∀ tzUs (s : List Char), endsWithGMT s = false →
      parse_datetime tzUs (.str s) = .passthrough (.str s)) ∧
    (∀ tzUs, parse_datetime tzUs .null = .passthrough .null) ∧
    (∀ tzUs,
      instantUs tzUs (parse_datetime tzUs (.str "2023-01-01T12:34:56.789GMT".toList)) =
        some ((1672576496789 : ℚ) * 1000) ∧
      instantUs tzUs (parse_datetime tzUs (.num 1672576496789)) =
        some ((1672576496789 : ℚ) * 1000)) := by
  have hnum : ∀ tzUs (q : ℚ),
      instantUs tzUs (parse_datetime tzUs (.num q)) = some (q * 1000) := by
    intro tzUs q
    simp only [parse_datetime, fromtimestampUs, instantUs, Option.some.injEq]
    ring
  refine ⟨hnum, ?_, ?_, fun _ => rfl, ?_⟩
  · intro tzUs l h0
    rw [parse_datetime, if_pos (endsWithGMT_append l), replaceGMT_single l h0]
  · intro tzUs s hns
    rw [parse_datetime, if_neg]
    rw [hns]
    exact Bool.false_ne_true
  · intro tzUs
    constructor
    · have hstr : parse_datetime tzUs (.str "2023-01-01T12:34:56.789GMT".toList) =
          .awareDt 1672576496789000 := by
        rw [show ("2023-01-01T12:34:56.789GMT".toList) =
          ("2023-01-01T12:34:56.789".toList ++ gmtLit) from by decide]
        rw [parse_datetime, if_pos (endsWithGMT_append _),
          replaceGMT_single _ (by decide)]
        rw [show strptimeIsoTz ("2023-01-01T12:34:56.789".toList ++ "+0000".toList) =
          some 1672576496789000 from by decide]
      rw [hstr]
      norm_num [instantUs]
    · rw [hnum]

theorem claim_C5_witness :
    parse_datetime 0 (.str ("2023-01-01T12:34:56.789".toList ++ gmtLit)) =
      (match strptimeIsoTz ("2023-01-01T12:34:56.789".toList ++ "+0000".toList) with
       | some us => TimeValue.awareDt us
       | none => .passthrough (.str ("2023-01-01T12:34:56.789".toList ++ gmtLit))) ∧
    parse_datetime 0 (.str "2023-01-01T12:34:56abc".toList) =
      .passthrough (.str "2023-01-01T12:34:56abc".toList) :=
  ⟨claim_C5.2.1 0 "2023-01-01T12:34:56.789".toList (by decide),
   claim_C5.2.2.1 0 "2023-01-01T12:34:56abc".toList (by decide)⟩

end SparkHistory
